import Mathlib

/-!
Shallow embedding of the Running-Log-Exporter core (fetch retry layer,
record parser segment logic, resumable state store, pagination discoverer,
export orchestrator, scoped reset) together with proofs settling the
specification claims about it.  Network, filesystem and HTML-parse outcomes
are supplied by oracles; each async task's state mutations are serialized,
matching the single-threaded event loop and the state store's lock.
-/

/-! ### Python string and number parsing helpers.
Embeddings of the CPython behaviors the scraper relies on:
`int(...)`, `float(...)`, `str.split()`, `str.split(":")`, `in`. -/

/-- Characters Python `str.split()` (no arguments) treats as separators;
modelled for the ASCII whitespace scraped table text can contain. -/
def pyIsSpace (c : Char) : Bool :=
  c = ' ' || c = '\t' || c = '\n' || c = '\r'

/-- Accumulator loop splitting a character list into maximal runs of
non-separator characters (structural recursion, so that proofs can
evaluate it). -/
def wordsByAux (p : Char → Bool) : List Char → List Char → List String
  | [], cur => if cur.isEmpty then [] else [String.mk cur.reverse]
  | c :: rest, cur =>
    if p c then
      if cur.isEmpty then wordsByAux p rest []
      else String.mk cur.reverse :: wordsByAux p rest []
    else wordsByAux p rest (c :: cur)

/-- Python `s.split()`: split on whitespace runs, dropping empty pieces. -/
def pySplitWs (s : String) : List String :=
  wordsByAux pyIsSpace s.data []

/-- Python `str.strip()` on ASCII whitespace, as `int()` and `float()`
apply to their argument. -/
def pyTrim (cs : List Char) : List Char :=
  ((cs.dropWhile pyIsSpace).reverse.dropWhile pyIsSpace).reverse

/-- Accumulator loop for single-character-separator splitting. -/
def splitOnCharAux (sep : Char) : List Char → List Char → List String
  | [], cur => [String.mk cur.reverse]
  | c :: rest, cur =>
    if c = sep then String.mk cur.reverse :: splitOnCharAux sep rest []
    else splitOnCharAux sep rest (c :: cur)

/-- Python `txt.split(":")`-style splitting on one separator character
(adjacent separators yield empty pieces, as in Python). -/
def splitOnChar (sep : Char) (s : String) : List String :=
  splitOnCharAux sep s.data []

/-- Whether `pat` occurs as a contiguous sublist of the first list. -/
def hasSublist : List Char → List Char → Bool
  | [], pat => pat.isEmpty
  | c :: rest, pat => pat.isPrefixOf (c :: rest) || hasSublist rest pat

/-- Python `str.lower()` for the ASCII text scraped pages contain. -/
def pyLower (s : String) : String :=
  String.mk (s.data.map Char.toLower)

/-- Value of a digit string. -/
def digitsToNat (ds : List Char) : ℕ :=
  ds.foldl (fun acc c => 10 * acc + (c.toNat - ('0').toNat)) 0

/-- Consume an optional leading sign. -/
def parseSign (cs : List Char) : ℤ × List Char :=
  match cs with
  | [] => (1, [])
  | c :: rest =>
    if c = '-' then (-1, rest)
    else if c = '+' then (1, rest)
    else (1, c :: rest)

/-- Python `int(txt)` on the strings the duration parser sees: optional
sign then decimal digits, surrounding whitespace stripped.  Returns `none`
where CPython raises `ValueError`.  (Underscore separators and non-ASCII
digits, which CPython also accepts, do not occur in scraped table text.) -/
def pyInt? (txt : String) : Option ℤ :=
  let (sign, ds) := parseSign (pyTrim txt.data)
  if ds.isEmpty then none
  else if ds.all Char.isDigit then some (sign * (digitsToNat ds : ℤ))
  else none

/-- Fractional part of a float literal: digits after a dot, if present. -/
def pyFloatFrac (cs : List Char) : List Char × List Char :=
  match cs with
  | c :: r =>
    if c = '.' then (r.takeWhile Char.isDigit, r.dropWhile Char.isDigit)
    else ([], c :: r)
  | [] => ([], [])

/-- Exponent part of a float literal; `none` where CPython raises. -/
def pyFloatExp (cs : List Char) : Option ℤ :=
  match cs with
  | [] => some 0
  | c :: r =>
    if c = 'e' || c = 'E' then
      let (es, r2) := parseSign r
      let eds := r2.takeWhile Char.isDigit
      let r3 := r2.dropWhile Char.isDigit
      if eds.isEmpty || !r3.isEmpty then none
      else some (es * (digitsToNat eds : ℤ))
    else none

/-- Python `float(txt)` restricted to finite decimal literals
`[sign] digits [. digits] [e [sign] digits]`, evaluated exactly in `ℚ`.
Returns `none` where CPython raises `ValueError`.  (`inf`/`nan` literals
and the rounding of the decimal value to binary64 are not modelled; only
the zero-versus-nonzero distinction matters to the claims below, and a
decimal literal is zero exactly when its `ℚ` value is, underflow of
sub-denormal magnitudes aside.) -/
def pyFloat? (txt : String) : Option ℚ :=
  let (sign, cs0) := parseSign (pyTrim txt.data)
  let ip := cs0.takeWhile Char.isDigit
  let cs1 := cs0.dropWhile Char.isDigit
  let (fp, cs2) := pyFloatFrac cs1
  match pyFloatExp cs2 with
  | none => none
  | some e =>
    if ip.isEmpty && fp.isEmpty then none
    else
      some (((sign * (digitsToNat (ip ++ fp) : ℤ) : ℤ) : ℚ) *
        (10 : ℚ) ^ (e - (fp.length : ℤ)))

/-- Python substring membership `pat in s`, for nonempty `pat` (the only
patterns the code tests are unit names such as the meters/kilometers
tokens). -/
def pyContains (s pat : String) : Bool :=
  hasSublist s.data pat.data

/-! ### Rate-limited retrying fetcher.
Embedding of the failure classification `_should_retry_fetch` and the
tenacity retry loop wrapped around `fetch`
(src/runninglog/utils/http_client.py lines 96-186). -/

/-- Failure shapes `_should_retry_fetch` distinguishes: an
`httpx.HTTPStatusError` carrying a response status, a transport-level
error (`httpx.HTTPError` / `httpx.ReadTimeout`), or any other exception
type. -/
inductive FetchFailure where
  | statusError (status : ℕ)
  | transportError
  | otherError
deriving DecidableEq

/-- Embedding of `_should_retry_fetch` (http_client.py lines 96-121). -/
def shouldRetryFetch : FetchFailure → Bool
  | .statusError status =>
    if status = 401 ∨ status = 403 then false
    else if status = 429 ∨ 500 ≤ status then true
    else false
  | .transportError => true
  | .otherError => false

/-- Outcome of one attempt of the body of `fetch`, as the retry loop
sees it. -/
inductive AttemptOutcome where
  | success (body : String)
  | failure (exc : FetchFailure)

/-- What the tenacity-wrapped `fetch` finally hands its caller: the page
body on success, the raised exception on a non-retryable failure, or
`None` — the return value of the `retry_error_callback`
`_log_final_retry_error` — once 10 attempts are exhausted. -/
inductive FetchResult where
  | body (s : String)
  | raised (exc : FetchFailure)
  | noneReturned
deriving DecidableEq

/-- Driver of `@retry(retry=retry_if_exception(_should_retry_fetch),
stop=stop_after_attempt(10), wait=..., reraise=True,
retry_error_callback=_log_final_retry_error)`: attempt `n` runs the call;
a failure the predicate rejects is re-raised at once; a retryable failure
on attempt 10 triggers the stop, where the callback's return value
(`None`) becomes the result — the callback takes precedence over
`reraise`; otherwise the loop waits and runs the next attempt.  `fuel`
only bounds the recursion and never runs out from `tenacityFetch`. -/
def tenacityGo (attempt : ℕ → AttemptOutcome) : ℕ → ℕ → FetchResult
  | 0, _ => .noneReturned
  | fuel + 1, n =>
    match attempt n with
    | .success b => .body b
    | .failure e =>
      if shouldRetryFetch e then
        if 10 ≤ n then .noneReturned
        else tenacityGo attempt fuel (n + 1)
      else .raised e

/-- The tenacity-wrapped `fetch`, over an oracle giving each attempt's
outcome (attempts are numbered from 1, as in tenacity). -/
def tenacityFetch (attempt : ℕ → AttemptOutcome) : FetchResult :=
  tenacityGo attempt 10 1

/-- tenacity `wait_exponential(multiplier=1, min=15, max=60)` evaluated
after attempt `n`: `max(max(0, min), min(multiplier * 2 ** n, max))`. -/
def waitExponential (n : ℕ) : ℚ :=
  max (max 0 15) (min (1 * (2 : ℚ) ^ n) 60)

/-- Total wait before the next attempt: the exponential term plus the
`wait_random(0, 5)` jitter draw. -/
def retryWait (n : ℕ) (jitter : ℚ) : ℚ :=
  waitExponential n + jitter

/-! ### Record parser: the segment-table logic of `scrape_workout`
(src/runninglog/core/scrape.py lines 180-266) and the helpers it uses. -/

/-- Embedding of `_parse_time` (src/runninglog/core/utils.py lines
29-45): `HH:MM:SS` or `MM:SS` to seconds; empty text, a piece `int()`
rejects, or any other shape yields 0. -/
def parseTime (txt : String) : ℤ :=
  if txt = "" then 0
  else
    match (splitOnChar (':') txt).mapM pyInt? with
    | none => 0
    | some [h, m, s] => h * 3600 + m * 60 + s
    | some [m, s] => m * 60 + s
    | some _ => 0

/-- The distance-cell parser inside `scrape_workout`'s row loop: split
the cell text on whitespace, `float()` the first token, then convert by
the unit token.  The code tests `"meter" in unit` first, so any
"kilometer…" unit also lands in the metres branch; `float`/index
failures fall back to 0.0 miles. -/
def parseMilesCell (distTxt : String) : ℚ :=
  if distTxt = "" then 0
  else
    match pySplitWs distTxt with
    | [] => 0
    | tok :: rest =>
      match pyFloat? tok with
      | none => 0
      | some val =>
        let unit := pyLower (rest.headD "")
        if pyContains unit ("meter") then val / (1609.34 : ℚ)
        else if pyContains unit ("kilometer") || unit == "km" || unit == "kms"
            || pyContains unit ("kilometers") then val / (1.60934 : ℚ)
        else val

/-- One `tr` of the detail table as the row loop sees it: whether its
parent is `tfoot`, and its `td` texts (already `get_text(strip=True)`). -/
structure TableRow where
  inTfoot : Bool
  cols : List String
deriving DecidableEq

/-- The row's distance cell `cols[0]` (the loop guards `len(cols) < 2`,
so the default is only for totality). -/
def rowDistTxt (r : TableRow) : String := r.cols.getD 0 ""

/-- The row's duration cell `cols[1]`. -/
def rowDurTxt (r : TableRow) : String := r.cols.getD 1 ""

/-- Miles parsed from a row. -/
def rowMiles (r : TableRow) : ℚ := parseMilesCell (rowDistTxt r)

/-- Seconds parsed from a row: `_parse_time(dur_txt) if dur_txt else 0`. -/
def rowSecs (r : TableRow) : ℤ :=
  if rowDurTxt r ≠ "" then parseTime (rowDurTxt r) else 0

/-- The row's `interval_type`: `cols[3]` when present and non-empty,
else the empty string. -/
def rowIntervalType (r : TableRow) : String :=
  if 3 < r.cols.length ∧ r.cols.getD 3 "" ≠ "" then r.cols.getD 3 "" else ""

/-- Bool form of the row-drop test `miles == 0 and secs == 0`. -/
def rowBothZero (r : TableRow) : Bool :=
  decide (rowMiles r = 0 ∧ rowSecs r = 0)

/-- Embedding of `WorkoutSegment` (src/runninglog/core/types.py),
restricted to the fields the scraper fills; `duration_seconds` keeps its
`Optional[int]` type. -/
structure WorkoutSegment where
  distance_miles : ℚ
  duration_seconds : Option ℤ
  interval_type : Option String
  shoes : Option String
  pace : Option String
deriving DecidableEq

/-- The segment built from one kept row.  `seg_meta_fields` starts as a
copy of `meta_fields`, which never carries an "interval_type" key, so
the segment's `interval_type` is the row's own when non-empty and `None`
otherwise; `shoes` is whatever `meta_fields.get("shoes")` held. -/
def rowSegment (metaShoes : Option String) (r : TableRow) : WorkoutSegment :=
  { distance_miles := rowMiles r
    duration_seconds := some (rowSecs r)
    interval_type :=
      if rowIntervalType r ≠ "" then some (rowIntervalType r) else none
    shoes := metaShoes
    pace := none }

/-- The row loop of `scrape_workout` over `table.find_all("tr")[1:]`:
skip `tfoot` rows, rows with fewer than two cells, and rows whose miles
and seconds both parse to zero; every surviving row appends a segment. -/
def segmentsFromRows (metaShoes : Option String) : List TableRow → List WorkoutSegment
  | [] => []
  | r :: rest =>
    if r.inTfoot then segmentsFromRows metaShoes rest
    else if r.cols.length < 2 then segmentsFromRows metaShoes rest
    else if rowMiles r = 0 ∧ rowSecs r = 0 then segmentsFromRows metaShoes rest
    else rowSegment metaShoes r :: segmentsFromRows metaShoes rest

/-- The synthesized zero-valued segment (scrape.py lines 243-255);
`meta_fields` never contains "interval_type", so it is `None`. -/
def zeroSegment (metaShoes : Option String) : WorkoutSegment :=
  { distance_miles := 0
    duration_seconds := some 0
    interval_type := none
    shoes := metaShoes
    pace := none }

/-- Segment list for a fetched detail page: the table's rows minus the
header (`find_all("tr")[1:]`) when a table is present; when there is no
table, or every row was dropped, exactly one zero-valued segment is
synthesized so the record is not empty. -/
def scrapeSegments (metaShoes : Option String) : Option (List TableRow) → List WorkoutSegment
  | none => [zeroSegment metaShoes]
  | some rows =>
    let built := segmentsFromRows metaShoes (rows.drop 1)
    if built = [] then [zeroSegment metaShoes] else built

/-- The paragraph/heading metadata `scrape_workout` collects before the
table loop, already extracted; the claims below do not depend on how. -/
structure MetaFields where
  title : Option String
  exerciseType : Option String
  weather : Option String
  comments : Option String
  shoes : Option String
deriving DecidableEq

/-- Embedding of `Workout` (src/runninglog/core/types.py), restricted to
the fields the claims mention (date and provenance omitted).
`total_duration_seconds` is always the computed sum at this construction
site, hence not optional here. -/
structure Workout where
  title : Option String
  exercise_type : Option String
  weather : Option String
  comments : Option String
  total_distance_miles : ℚ
  total_duration_seconds : ℤ
  segments : List WorkoutSegment
deriving DecidableEq

/-- The `Workout(...)` value built at the end of `scrape_workout`
(scrape.py lines 256-266): totals are recomputed from the final segment
list as `sum(s.distance_miles for s in segments)` and
`sum(s.duration_seconds or 0 for s in segments)`. -/
def scrapeWorkout (meta : MetaFields) (table : Option (List TableRow)) : Workout :=
  let segments := scrapeSegments meta.shoes table
  { title := meta.title
    exercise_type := meta.exerciseType
    weather := meta.weather
    comments := meta.comments
    total_distance_miles := (segments.map (fun s => s.distance_miles)).sum
    total_duration_seconds := (segments.map (fun s => s.duration_seconds.getD 0)).sum
    segments := segments }

/-! ### Resumable state store (src/runninglog/core/state.py). -/

/-- The three persisted sets of `ExportState` (the `path`, `version` and
lock fields do not affect the set claims). -/
structure ExportState where
  done_wids : Finset ℕ
  processed_workout_list_pages : Finset ℕ
  discovered_wids : Finset ℕ
deriving DecidableEq

/-- A fresh empty state (the dataclass defaults). -/
def ExportState.fresh : ExportState := ⟨∅, ∅, ∅⟩

/-- Embedding of `ExportState.mark_done`: adds to `done_wids` under the
lock and persists (the file write does not change the in-memory sets). -/
def ExportState.mark_done (s : ExportState) (wid : ℕ) : ExportState :=
  { s with done_wids := insert wid s.done_wids }

/-- Embedding of `ExportState.add_discovered`. -/
def ExportState.add_discovered (s : ExportState) (wids : Finset ℕ) : ExportState :=
  { s with discovered_wids := s.discovered_wids ∪ wids }

/-- Embedding of `ExportState.save`: serializes; mutates no set. -/
def ExportState.save (s : ExportState) : ExportState := s

/-! ### The `ExportState.load` path (state.py lines 50-76), down to the
file's contents. -/

/-- JSON documents, for modelling what `json.load` can return. -/
inductive Json where
  | null
  | bool (b : Bool)
  | num (n : ℤ)
  | str (s : String)
  | arr (elems : List Json)
  | obj (fields : List (String × Json))

/-- What the state file can hold: absent, text `json.load` rejects
(raising `json.JSONDecodeError`), or text parsing to a JSON document. -/
inductive StateFileContent where
  | missing
  | notJson (raw : String)
  | jsonDoc (doc : Json)

/-- The Python exceptions the load path can raise. -/
inductive PyError where
  | attributeError
  | typeError
deriving DecidableEq

/-- Python `data.get(key, default)`: only dicts have `.get`; on any
other parsed document the attribute access raises `AttributeError`. -/
def jsonGet (data : Json) (key : String) (dflt : Json) : Except PyError Json :=
  match data with
  | .obj fields =>
    match fields.lookup key with
    | some v => Except.ok v
    | none => Except.ok dflt
  | _ => Except.error PyError.attributeError

/-- Whether a JSON value maps to a hashable Python value. -/
def Json.isHashable : Json → Bool
  | .arr _ => false
  | .obj _ => false
  | _ => true

/-- Python `set(x)`: iterates lists (elements), strings (characters) and
dicts (keys); any other value, or an unhashable element, raises
`TypeError`.  Members are kept as a list: only membership and emptiness
matter below, so duplicate erasure is not modelled. -/
def pySetOf : Json → Except PyError (List Json)
  | .arr elems =>
    if elems.all Json.isHashable then Except.ok elems
    else Except.error PyError.typeError
  | .str s => Except.ok (s.toList.map (fun c => Json.str (String.singleton c)))
  | .obj fields => Except.ok (fields.map (fun kv => Json.str kv.1))
  | _ => Except.error PyError.typeError

/-- The in-memory result of `ExportState.load` before the members are
used: the raw members of the three sets plus the version value. -/
structure LoadedExportState where
  done_wids : List Json
  processed_workout_list_pages : List Json
  discovered_wids : List Json
  version : Json

/-- The fresh state `cls(path=path)`: empty sets, version 2 (dataclass
defaults). -/
def freshLoadedState : LoadedExportState :=
  ⟨[], [], [], Json.num 2⟩

/-- Embedding of `ExportState.load` over the file's contents: a missing
file, or one whose text `json.load` rejects, yields a fresh state (the
latter after a logged warning); parsed JSON flows through
`data.get(...)` and `set(...)`, whose Python errors are not caught and
escape `load`. -/
def ExportState.load : StateFileContent → Except PyError LoadedExportState
  | .missing => Except.ok freshLoadedState
  | .notJson _ => Except.ok freshLoadedState
  | .jsonDoc data => do
    let dw ← jsonGet data ("done_wids") (Json.arr [])
    let done_wids ← pySetOf dw
    let pp ← jsonGet data ("processed_workout_list_pages") (Json.arr [])
    let processed ← pySetOf pp
    let dv ← jsonGet data ("discovered_wids") (Json.arr [])
    let discovered ← pySetOf dv
    let version ← jsonGet data ("version") (Json.num 1)
    return ⟨done_wids, processed, discovered, version⟩

/-! ### Pagination discoverer
(`scrape_all_wids_from_workout_list_pages`, scrape.py lines 280-524). -/

/-- Outcome of fetching and parsing one listing page. -/
inductive PageOutcome where
  | ok (wids : Finset ℕ)
  | httpError (status : ℕ)
  | otherError
deriving DecidableEq

/-- The except-branches of `fetch_and_process_page`. -/
inductive PageFailureAction where
  | skipPastEnd
  | stopThisPage
  | stopUnexpected
deriving DecidableEq

/-- Which except-branch a failing page fetch takes (scrape.py lines
462-488): a 404 beyond page 1 is "Assuming end of workout list" and is
skipped; any other HTTP error, or any other exception, stops only that
page's task. -/
def pageFailureAction (pageNum : ℕ) : PageOutcome → Option PageFailureAction
  | .ok _ => none
  | .httpError status =>
    if status = 404 ∧ 1 < pageNum then some PageFailureAction.skipPastEnd
    else some PageFailureAction.stopThisPage
  | .otherError => some PageFailureAction.stopUnexpected

/-- State effect of one `fetch_and_process_page(page_num)` task run to
completion: under the session cap, a successful page merges its
identifiers into `discovered_wids`, marks the page processed, saves
state, and bumps `pages_scraped_this_call`; every failing branch
returns, leaving the state untouched (the transient
`state.discovered_pages` attribute, which always mirrors the processed
additions of the current call and is never serialized, is omitted). -/
def fetch_and_process_page (pageOracle : ℕ → PageOutcome) (sessionCap : ℕ)
    (acc : ExportState × ℕ) (pageNum : ℕ) : ExportState × ℕ :=
  let (state, scraped) := acc
  if sessionCap ≤ scraped then acc
  else
    match pageOracle pageNum with
    | .ok wids =>
      ({ state with
          discovered_wids := state.discovered_wids ∪ wids,
          processed_workout_list_pages :=
            insert pageNum state.processed_workout_list_pages },
        scraped + 1)
    | .httpError _ => acc
    | .otherError => acc

/-- The pages the call will fetch:
`missing = sorted(expected_pages - already_processed_pages)`, where
`state.discovered_pages` was created empty just above, so the
already-processed set is exactly `processed_workout_list_pages`. -/
def missingPages (maxPageNum : ℕ) (state : ExportState) : List ℕ :=
  ((Finset.Icc 1 maxPageNum) \ state.processed_workout_list_pages).sort (· ≤ ·)

/-- The page-fetch loop of `scrape_all_wids_from_workout_list_pages`:
the tasks' state effects in submission order (set union and page marking
commute, so any interleaving of the gathered tasks yields this state). -/
def runDiscovery (pageOracle : ℕ → PageOutcome) (sessionCap maxPageNum : ℕ)
    (state : ExportState) : ExportState × ℕ :=
  (missingPages maxPageNum state).foldl
    (fetch_and_process_page pageOracle sessionCap) (state, 0)

/-! ### Export orchestrator (`run_full_export` and `run_one_wid`,
src/runninglog/core/orchestrator.py lines 46-161). -/

/-- One parsed segment as `run_one_wid` consumes it: enough to name the
output file `{date}_wid{wid}_seg{index:02d}.tcx`. -/
structure ExportSeg where
  dateIso : String
  index : ℕ
deriving DecidableEq

/-- Outcome of the iteration `async for seg in scrape_workout(...)`
inside `run_one_wid` (orchestrator.py line 57).  In the source as
written this iteration ALWAYS raises: `scrape_workout` contains no
`yield`, so it is a plain coroutine returning a `Workout` and not an
async iterable, and the `async for` raises `TypeError` before any
segment is produced — the `.fail` outcome, realized for every
identifier by `scrapeOracleActual` below.  The `.segs` outcome models
the successful iteration the surrounding loop is written to consume; it
is unreachable in the current source, and keeping it in the oracle only
over-approximates the program's behaviors, so the universally
quantified safety theorems below still cover the real runs. -/
inductive ScrapeOutcome where
  | fail
  | segs (l : List ExportSeg)
deriving DecidableEq

/-- Python `{n:02d}` for a natural number. -/
def pad2 (n : ℕ) : String :=
  if n < 10 then "0" ++ toString n else toString n

/-- The output artifact name `run_one_wid` writes for one segment:
`f"{segment.date.date().isoformat()}_wid{wid}_seg{segment.index:02d}.tcx"`. -/
def segFileName (wid : ℕ) (seg : ExportSeg) : String :=
  seg.dateIso ++ "_wid" ++ toString wid ++ "_seg" ++ pad2 seg.index ++ ".tcx"

/-- The artifact files `run_one_wid`'s write loop produces for `wid`
from the iterated segments.  On `.fail` — the only outcome the source
can reach, since the `async for` raises before the loop — no file is
written and the list is empty. -/
def widFiles (scrapeOracle : ℕ → ScrapeOutcome) (wid : ℕ) : List String :=
  match scrapeOracle wid with
  | .fail => []
  | .segs l => l.map (segFileName wid)

/-- The scrape-outcome oracle the current source realizes for every
identifier: `async for seg in scrape_workout(...)` raises `TypeError`
unconditionally (`scrape_workout` has no `yield`), before any segment
is produced or any file written; `run_one_wid`'s `except Exception`
turns this into status "error" for every wid. -/
def scrapeOracleActual : ℕ → ScrapeOutcome := fun _ => ScrapeOutcome.fail

/-- The status field of `run_one_wid`'s result dict. -/
inductive WidStatus where
  | ok
  | error
  | empty
deriving DecidableEq

/-- Status of `run_one_wid(wid)`'s result dict: "error" when the
iteration raised (the arm every identifier takes in the source as
written, via the `async for` `TypeError`), "empty" when it yielded no
segments, else "ok" — returned only after `write_tcx` ran for every
segment.  The ok/empty arms belong to the success path the code is
structured for but cannot currently reach. -/
def runOneWidStatus (scrapeOracle : ℕ → ScrapeOutcome) (wid : ℕ) : WidStatus :=
  match scrapeOracle wid with
  | .fail => WidStatus.error
  | .segs [] => WidStatus.empty
  | .segs (_ :: _) => WidStatus.ok

/-- Observable storage events of a run: a segment-file write inside
`run_one_wid`, or a `state.mark_done` inside `worker`. -/
inductive Event where
  | write (wid : ℕ) (file : String)
  | mark_done (wid : ℕ)
deriving DecidableEq

/-- Accumulator of the export loop: the mutable state, the storage event
trace, and the collected per-wid results. -/
structure ExportAcc where
  state : ExportState
  trace : List Event
  results : List (ℕ × WidStatus)
deriving DecidableEq

/-- One `worker(wid, idx)` call (orchestrator.py lines 137-144): run
`run_one_wid` — writing its artifact files — and, only when the result
status is "ok", mark the identifier done (which persists the state). -/
def worker (scrapeOracle : ℕ → ScrapeOutcome) (acc : ExportAcc) (wid : ℕ) : ExportAcc :=
  let status := runOneWidStatus scrapeOracle wid
  let writes := (widFiles scrapeOracle wid).map (fun f => Event.write wid f)
  if status = WidStatus.ok then
    { state := acc.state.mark_done wid
      trace := acc.trace ++ writes ++ [Event.mark_done wid]
      results := acc.results ++ [(wid, status)] }
  else
    { state := acc.state
      trace := acc.trace ++ writes
      results := acc.results ++ [(wid, status)] }

/-- The pending set:
`pending = sorted(set(discovered) - state.done_wids, reverse=True)`. -/
def computePending (discovered done : Finset ℕ) : List ℕ :=
  ((discovered \ done).sort (· ≤ ·)).reverse

/-- The status of a whole `run_full_export` call: "ok" or "empty" as the
returned dict says, or `fatal` when the `RuntimeError` from a failed
pagination parse propagates out. -/
inductive RunStatus where
  | ok
  | empty
  | fatal
deriving DecidableEq

/-- The run summary dict. -/
structure RunResult where
  status : RunStatus
  exported : List ℕ
  failed : List ℕ
deriving DecidableEq

/-- Everything a run observably produces: the summary, the final state,
and the storage event trace. -/
structure RunOutput where
  result : RunResult
  state : ExportState
  trace : List Event
deriving DecidableEq

/-- The remote service and parser as one oracle: the max page number the
pagination controls of page 1 yield (`none`: the fetch or parse failed,
a fatal `RuntimeError`), each listing page's outcome, and each detail
scrape's outcome. -/
structure Oracle where
  pagination : Option ℕ
  page : ℕ → PageOutcome
  scrape : ℕ → ScrapeOutcome

/-- Embedding of `run_full_export` (orchestrator.py lines 81-161): load
state (`s0`), discover, compute the pending list descending, then run
the workers over it in order, and summarize. -/
def run_full_export (o : Oracle) (sessionCap : ℕ) (s0 : ExportState) : RunOutput :=
  match o.pagination with
  | none => ⟨⟨RunStatus.fatal, [], []⟩, s0, []⟩
  | some maxPageNum =>
    let s1 := (runDiscovery o.page sessionCap maxPageNum s0).1
    let pending := computePending s1.discovered_wids s1.done_wids
    if pending = [] then ⟨⟨RunStatus.empty, [], []⟩, s1, []⟩
    else
      let acc := pending.foldl (worker o.scrape) ⟨s1, [], []⟩
      ⟨⟨RunStatus.ok,
        (acc.results.filter (fun r => r.2 == WidStatus.ok)).map (fun r => r.1),
        (acc.results.filter (fun r => !(r.2 == WidStatus.ok))).map (fun r => r.1)⟩,
        acc.state, acc.trace⟩

/-- All successive values of a left fold, the seed included. -/
def foldStates {σ α : Type} (f : σ → α → σ) (init : σ) : List α → List σ
  | [] => [init]
  | a :: l => init :: foldStates f (f init a) l

/-- Every successive value of the mutable `ExportState` during one
`run_full_export` call: after the initial load (and its save), after
each discovery page task, and after each export worker. -/
def runStates (o : Oracle) (sessionCap : ℕ) (s0 : ExportState) : List ExportState :=
  match o.pagination with
  | none => [s0]
  | some maxPageNum =>
    let discAccs := foldStates (fetch_and_process_page o.page sessionCap) (s0, 0)
        (missingPages maxPageNum s0)
    let s1 := (runDiscovery o.page sessionCap maxPageNum s0).1
    let pending := computePending s1.discovered_wids s1.done_wids
    discAccs.map Prod.fst ++
      (foldStates (worker o.scrape) ⟨s1, [], []⟩ pending).map ExportAcc.state

/-- One full orchestrator run, with any oracle and session cap. -/
def RunStep (s s' : ExportState) : Prop :=
  ∃ o cap, (run_full_export o cap s).state = s'

/-- States reachable from a fresh empty `ExportState` by repeated runs. -/
def ReachableState (s : ExportState) : Prop :=
  Relation.ReflTransGen RunStep ExportState.fresh s

/-- The write-before-mark discipline on a trace: scanning left to right
with the (wid, file) writes seen so far, every `mark_done wid` finds all
of that identifier's artifact files already written, and at least one
such file exists. -/
def marksAfterWrites (files : ℕ → List String) : List Event → List (ℕ × String) → Prop
  | [], _ => True
  | Event.write w f :: rest, seen => marksAfterWrites files rest ((w, f) :: seen)
  | Event.mark_done w :: rest, seen =>
      (files w ≠ [] ∧ ∀ f ∈ files w, (w, f) ∈ seen) ∧ marksAfterWrites files rest seen

/-- The writes a trace contributes to the seen-set. -/
def seenAfter : List Event → List (ℕ × String) → List (ℕ × String)
  | [], seen => seen
  | Event.write w f :: rest, seen => seenAfter rest ((w, f) :: seen)
  | Event.mark_done _ :: rest, seen => seenAfter rest seen

/-! ### Scoped reset (`--refresh-wids`, src/runninglog/cli/typer_main.py
lines 184-222). -/

/-- The literal tail of the glob pattern `*wid{wid}.json`. -/
def widJsonSuffix (wid : ℕ) : String :=
  "wid" ++ toString wid ++ ".json"

/-- Membership in `output_subdir.glob(f"*wid{wid}.json")`: the pattern
is a single `*` followed by a literal, so a (non-hidden) name matches
exactly when that literal is its suffix. -/
def matchesWidJsonGlob (wid : ℕ) (name : String) : Bool :=
  (widJsonSuffix wid).data.isSuffixOf name.data

/-- One iteration of the `--refresh-wids` loop: drop the identifier from
`done_wids` when present, and unlink every file the glob matches. -/
def refresh_wid_step (acc : ExportState × Finset String) (wid : ℕ) :
    ExportState × Finset String :=
  let (state, files) := acc
  let state' :=
    if wid ∈ state.done_wids then
      { state with done_wids := state.done_wids.erase wid }
    else state
  (state', files.filter (fun f => matchesWidJsonGlob wid f = false))

/-- The whole `--refresh-wids` pass over the parsed identifier list,
followed by `state_to_update.save()` (which changes no set). -/
def scoped_reset (refreshWids : List ℕ) (state : ExportState)
    (files : Finset String) : ExportState × Finset String :=
  (refreshWids.foldl refresh_wid_step (state, files))

/-! ### Derived views of a run, named for the theorems below. -/

/-- The pending list a `run_full_export` call iterates (empty when the
pagination parse fails and the run aborts). -/
def runPending (o : Oracle) (sessionCap : ℕ) (s0 : ExportState) : List ℕ :=
  match o.pagination with
  | none => []
  | some maxPageNum =>
    let s1 := (runDiscovery o.page sessionCap maxPageNum s0).1
    computePending s1.discovered_wids s1.done_wids

/-- The identifiers a trace marks done. -/
def markedWids (trace : List Event) : Finset ℕ :=
  (trace.filterMap (fun e =>
    match e with
    | Event.mark_done w => some w
    | Event.write _ _ => none)).toFinset

/-! ## Helper lemmas shared by the claim theorems -/

theorem scrapeSegments_ne_nil (metaShoes : Option String)
    (table : Option (List TableRow)) : scrapeSegments metaShoes table ≠ [] := by
  cases table with
  | none => simp [scrapeSegments]
  | some rows =>
    simp only [scrapeSegments]
    split <;> simp_all

theorem segmentsFromRows_eq_nil_of_all_zero (metaShoes : Option String) :
    ∀ rows : List TableRow, (∀ r ∈ rows, rowMiles r = 0 ∧ rowSecs r = 0) →
      segmentsFromRows metaShoes rows = [] := by
  intro rows
  induction rows with
  | nil => intro _; rfl
  | cons r rest ih =>
    intro h
    have hr := h r (by simp)
    have hrest := fun x hx => h x (List.mem_cons_of_mem r hx)
    simp only [segmentsFromRows]
    split_ifs with h1 h2 h3 <;> first | exact ih hrest | exact absurd hr h3

theorem segmentsFromRows_filter_zero (metaShoes : Option String) :
    ∀ rows : List TableRow,
      segmentsFromRows metaShoes (rows.filter (fun r => !rowBothZero r)) =
      segmentsFromRows metaShoes rows := by
  intro rows
  induction rows with
  | nil => rfl
  | cons r rest ih =>
    by_cases hz : rowMiles r = 0 ∧ rowSecs r = 0
    · have hb : rowBothZero r = true := by simp [rowBothZero, hz.1, hz.2]
      have hf : List.filter (fun x => !rowBothZero x) (r :: rest)
          = List.filter (fun x => !rowBothZero x) rest := by
        simp [List.filter_cons, hb]
      rw [hf, ih]
      symm
      simp only [segmentsFromRows]
      split_ifs with ha hb2 hc <;> first | rfl | exact absurd hz hc
    · have hb : rowBothZero r = false := by simp [rowBothZero, hz]
      have hf : List.filter (fun x => !rowBothZero x) (r :: rest)
          = r :: List.filter (fun x => !rowBothZero x) rest := by
        simp [List.filter_cons, hb]
      rw [hf]
      simp only [segmentsFromRows]
      rw [ih]

theorem tenacityGo_step (attempt : ℕ → AttemptOutcome) (fuel n : ℕ) :
    tenacityGo attempt (fuel + 1) n =
      match attempt n with
      | AttemptOutcome.success b => FetchResult.body b
      | AttemptOutcome.failure e =>
        if shouldRetryFetch e then
          if 10 ≤ n then FetchResult.noneReturned
          else tenacityGo attempt fuel (n + 1)
        else FetchResult.raised e := rfl

theorem tenacityGo_congr (a b : ℕ → AttemptOutcome)
    (h : ∀ k, 1 ≤ k → k ≤ 10 → a k = b k) :
    ∀ fuel n, 1 ≤ n → n + fuel = 11 → tenacityGo a fuel n = tenacityGo b fuel n := by
  intro fuel
  induction fuel with
  | zero => intro n _ _; rfl
  | succ f ih =>
    intro n h1 hsum
    rw [tenacityGo_step, tenacityGo_step, h n h1 (by omega)]
    cases b n with
    | success s => rfl
    | failure e =>
      simp only
      split_ifs with hr h10
      · rfl
      · exact ih (n + 1) (by omega) (by omega)
      · rfl

theorem tenacityGo_exhaust (attempt : ℕ → AttemptOutcome) (e : FetchFailure)
    (hall : ∀ k, 1 ≤ k → k ≤ 10 → attempt k = AttemptOutcome.failure e)
    (hre : shouldRetryFetch e = true) :
    ∀ fuel n, 1 ≤ n → n + fuel = 11 →
      tenacityGo attempt fuel n = FetchResult.noneReturned := by
  intro fuel
  induction fuel with
  | zero => intro n _ _; rfl
  | succ f ih =>
    intro n h1 hsum
    rw [tenacityGo_step, hall n h1 (by omega)]
    simp only [hre, if_true]
    by_cases h10 : 10 ≤ n
    · simp [h10]
    · simp only [h10, if_false]
      exact ih (n + 1) (by omega) (by omega)

/-! ## Claim theorems -/

/-- C10: every `Workout` the scraper builds has a non-empty segment
list, a total distance equal to the sum of its segments' distances, and
a total duration equal to the sum of its segments' durations (an absent
duration counting as 0). -/
theorem workout_totals_invariant (meta : MetaFields) (table : Option (List TableRow)) :
    (scrapeWorkout meta table).segments ≠ [] ∧
    (scrapeWorkout meta table).total_distance_miles =
      ((scrapeWorkout meta table).segments.map (fun s => s.distance_miles)).sum ∧
    (scrapeWorkout meta table).total_duration_seconds =
      ((scrapeWorkout meta table).segments.map (fun s => s.duration_seconds.getD 0)).sum :=
  ⟨scrapeSegments_ne_nil meta.shoes table, rfl, rfl⟩

/-- C7: a detail page whose table's data rows all parse to zero miles
and zero seconds yields exactly one synthesized zero-valued segment, not
zero segments; and dropping the both-zero rows from any row list leaves
the built segment list unchanged (each such row is itself dropped). -/
theorem all_zero_rows_synthesize_one_segment :
    (∀ (metaShoes : Option String) (rows : List TableRow),
        (∀ r ∈ rows.drop 1, rowMiles r = 0 ∧ rowSecs r = 0) →
        scrapeSegments metaShoes (some rows) = [zeroSegment metaShoes]) ∧
    (∀ (metaShoes : Option String) (rows : List TableRow),
        segmentsFromRows metaShoes (rows.filter (fun r => !rowBothZero r)) =
        segmentsFromRows metaShoes rows) := by
  constructor
  · intro ms rows h
    have hnil := segmentsFromRows_eq_nil_of_all_zero ms (rows.drop 1) h
    simp only [scrapeSegments, hnil]
    simp
  · exact segmentsFromRows_filter_zero

/-- Witness for C7 at a concrete two-row table (a header row and one
all-zero data row). -/
theorem all_zero_rows_synthesize_one_segment_witness :
    scrapeSegments (some ("gel")) (some [⟨false, []⟩, ⟨false, ["", "0:00"]⟩]) =
      [zeroSegment (some ("gel"))] :=
  all_zero_rows_synthesize_one_segment.1 _ _ (by decide)

/-- C6 counterexample: a state file whose contents are valid JSON but
not an object (here the document `null`) makes `ExportState.load` raise
`AttributeError` — a fatal error — instead of returning a state. -/
theorem load_nonobject_json_raises :
    ExportState.load (StateFileContent.jsonDoc Json.null) =
      Except.error PyError.attributeError := rfl

/-- C6 (amended): a missing state file, or one whose text `json.load`
rejects, yields a fresh empty state (the latter after a logged warning);
`load` is not, however, total over all file contents — valid JSON that
is not an object escapes as an uncaught Python error. -/
theorem load_missing_or_unparseable_fresh :
    ExportState.load StateFileContent.missing = Except.ok freshLoadedState ∧
    (∀ raw : String,
        ExportState.load (StateFileContent.notJson raw) = Except.ok freshLoadedState) ∧
    freshLoadedState.done_wids = [] ∧
    freshLoadedState.processed_workout_list_pages = [] ∧
    freshLoadedState.discovered_wids = [] :=
  ⟨rfl, fun _ => rfl, rfl, rfl, rfl⟩

/-- C3: the fetch retry classification — 401/403 terminal, 429 or ≥500
retryable, other 4xx terminal, transport errors retryable, unknown
exception shapes terminal; a non-retryable failure is raised at once;
the backoff wait is the exponential term clamped to [15, 60] plus jitter
in [0, 5]; the outcome depends on at most the first 10 attempts; but
exhausting all 10 attempts on retryable failures does NOT surface the
last failure: the `retry_error_callback` takes precedence over
`reraise=True`, so `fetch` returns `None` to its caller. -/
theorem fetch_retry_classification :
    (∀ status : ℕ,
        shouldRetryFetch (FetchFailure.statusError status) = true ↔
          (status ≠ 401 ∧ status ≠ 403 ∧ (status = 429 ∨ 500 ≤ status))) ∧
    shouldRetryFetch FetchFailure.transportError = true ∧
    shouldRetryFetch FetchFailure.otherError = false ∧
    (∀ (attempt : ℕ → AttemptOutcome) (e : FetchFailure),
        attempt 1 = AttemptOutcome.failure e → shouldRetryFetch e = false →
        tenacityFetch attempt = FetchResult.raised e) ∧
    (∀ n : ℕ, 15 ≤ waitExponential n ∧ waitExponential n ≤ 60) ∧
    (∀ (n : ℕ) (jitter : ℚ), 0 ≤ jitter → jitter ≤ 5 →
        waitExponential n ≤ retryWait n jitter ∧
        retryWait n jitter ≤ waitExponential n + 5) ∧
    (∀ a b : ℕ → AttemptOutcome, (∀ n, 1 ≤ n → n ≤ 10 → a n = b n) →
        tenacityFetch a = tenacityFetch b) ∧
    (∀ (attempt : ℕ → AttemptOutcome) (e : FetchFailure),
        (∀ n, 1 ≤ n → n ≤ 10 → attempt n = AttemptOutcome.failure e) →
        shouldRetryFetch e = true →
        tenacityFetch attempt = FetchResult.noneReturned) ∧
    tenacityFetch (fun _ => AttemptOutcome.failure (FetchFailure.statusError 500)) =
      FetchResult.noneReturned := by
  refine ⟨?_, rfl, rfl, ?_, ?_, ?_, ?_, ?_, ?_⟩
  · intro status
    constructor
    · intro h
      simp only [shouldRetryFetch] at h
      split_ifs at h with h1 h2
      omega
    · intro h
      simp only [shouldRetryFetch]
      split_ifs with h1 h2
      · exact absurd h1 (by omega)
      · rfl
      · exact absurd (by omega : status = 429 ∨ 500 ≤ status) h2
  · intro attempt e h1 hno
    show tenacityGo attempt (9 + 1) 1 = FetchResult.raised e
    rw [tenacityGo_step, h1]
    simp [hno]
  · intro n
    unfold waitExponential
    constructor
    · exact le_max_of_le_left (by norm_num)
    · exact max_le (by norm_num) (min_le_right _ _)
  · intro n jitter h0 h5
    unfold retryWait
    constructor <;> linarith
  · intro a b h
    exact tenacityGo_congr a b h 10 1 (by omega) (by omega)
  · intro attempt e hall hre
    exact tenacityGo_exhaust attempt e hall hre 10 1 (by omega) (by omega)
  · rfl

/-- Witness for C3: a 403 is raised unretried; exhausting ten transport
failures yields `None`; and the classification instance at status 404. -/
theorem fetch_retry_classification_witness :
    tenacityFetch (fun _ => AttemptOutcome.failure (FetchFailure.statusError 403)) =
      FetchResult.raised (FetchFailure.statusError 403) ∧
    tenacityFetch (fun _ => AttemptOutcome.failure FetchFailure.transportError) =
      FetchResult.noneReturned ∧
    (shouldRetryFetch (FetchFailure.statusError 404) = true ↔
      ((404 : ℕ) ≠ 401 ∧ (404 : ℕ) ≠ 403 ∧ ((404 : ℕ) = 429 ∨ 500 ≤ (404 : ℕ)))) :=
  ⟨fetch_retry_classification.2.2.2.1 _ _ rfl (by decide),
   fetch_retry_classification.2.2.2.2.2.2.2.1 _ _ (fun n _ _ => rfl) (by decide),
   fetch_retry_classification.1 404⟩

/-! ## Helper lemmas about the pending list, the worker fold, the
discovery fold, and event traces -/

theorem computePending_toFinset (D C : Finset ℕ) :
    (computePending D C).toFinset = D \ C := by
  unfold computePending
  rw [List.toFinset_reverse]
  exact Finset.sort_toFinset _ _

theorem computePending_sorted_gt (D C : Finset ℕ) :
    List.Sorted (· > ·) (computePending D C) := by
  have h := Finset.sort_sorted_lt (D \ C)
  unfold computePending
  rw [List.Sorted, List.pairwise_reverse]
  exact h

theorem computePending_eq_nil (D C : Finset ℕ) (h : D ⊆ C) :
    computePending D C = [] := by
  unfold computePending
  rw [Finset.sdiff_eq_empty_iff_subset.mpr h, Finset.sort_empty, List.reverse_nil]

theorem computePending_mem_discovered (D C : Finset ℕ) (w : ℕ)
    (h : w ∈ computePending D C) : w ∈ D := by
  have := computePending_toFinset D C
  have hw : w ∈ (computePending D C).toFinset := List.mem_toFinset.mpr h
  rw [this] at hw
  exact (Finset.mem_sdiff.mp hw).1

theorem worker_state_discovered (so : ℕ → ScrapeOutcome) (acc : ExportAcc) (w : ℕ) :
    (worker so acc w).state.discovered_wids = acc.state.discovered_wids := by
  simp only [worker]
  split_ifs <;> rfl

theorem worker_state_pages (so : ℕ → ScrapeOutcome) (acc : ExportAcc) (w : ℕ) :
    (worker so acc w).state.processed_workout_list_pages =
      acc.state.processed_workout_list_pages := by
  simp only [worker]
  split_ifs <;> rfl

theorem worker_state_done (so : ℕ → ScrapeOutcome) (acc : ExportAcc) (w : ℕ) :
    (worker so acc w).state.done_wids =
      if runOneWidStatus so w = WidStatus.ok then insert w acc.state.done_wids
      else acc.state.done_wids := by
  simp only [worker]
  split_ifs <;> rfl

theorem worker_foldl_results (so : ℕ → ScrapeOutcome) :
    ∀ (l : List ℕ) (acc : ExportAcc),
      (l.foldl (worker so) acc).results =
        acc.results ++ l.map (fun w => (w, runOneWidStatus so w)) := by
  intro l
  induction l with
  | nil => intro acc; simp
  | cons w rest ih =>
    intro acc
    rw [List.foldl_cons, ih]
    have hres : (worker so acc w).results =
        acc.results ++ [(w, runOneWidStatus so w)] := by
      simp only [worker]
      split_ifs <;> rfl
    rw [hres, List.append_assoc]
    simp

theorem worker_foldl_state (so : ℕ → ScrapeOutcome) :
    ∀ (l : List ℕ) (acc : ExportAcc),
      (l.foldl (worker so) acc).state.discovered_wids = acc.state.discovered_wids ∧
      (l.foldl (worker so) acc).state.processed_workout_list_pages =
        acc.state.processed_workout_list_pages ∧
      (l.foldl (worker so) acc).state.done_wids =
        acc.state.done_wids ∪
          (l.filter (fun w => runOneWidStatus so w == WidStatus.ok)).toFinset := by
  intro l
  induction l with
  | nil => intro acc; simp
  | cons w rest ih =>
    intro acc
    rw [List.foldl_cons]
    obtain ⟨h1, h2, h3⟩ := ih (worker so acc w)
    refine ⟨h1.trans (worker_state_discovered so acc w),
      h2.trans (worker_state_pages so acc w), ?_⟩
    rw [h3, worker_state_done]
    by_cases hok : runOneWidStatus so w = WidStatus.ok
    · rw [if_pos hok, List.filter_cons_of_pos (by simp [hok])]
      ext x
      simp only [Finset.mem_insert, Finset.mem_union, List.toFinset_cons]
      tauto
    · rw [if_neg hok, List.filter_cons_of_neg (by simp [hok])]

theorem widFiles_ne_nil_of_ok (so : ℕ → ScrapeOutcome) (w : ℕ)
    (h : runOneWidStatus so w = WidStatus.ok) : widFiles so w ≠ [] := by
  unfold runOneWidStatus at h
  unfold widFiles
  cases hso : so w with
  | fail => rw [hso] at h; simp at h
  | segs l =>
    rw [hso] at h
    cases l with
    | nil => simp at h
    | cons a as => simp

theorem marksAfterWrites_append (files : ℕ → List String) :
    ∀ (t1 t2 : List Event) (seen : List (ℕ × String)),
      marksAfterWrites files (t1 ++ t2) seen ↔
        (marksAfterWrites files t1 seen ∧
          marksAfterWrites files t2 (seenAfter t1 seen)) := by
  intro t1
  induction t1 with
  | nil => intro t2 seen; simp [marksAfterWrites, seenAfter]
  | cons e rest ih =>
    intro t2 seen
    cases e with
    | write w f =>
      simp only [List.cons_append, marksAfterWrites, seenAfter]
      exact ih t2 ((w, f) :: seen)
    | mark_done w =>
      simp only [List.cons_append, marksAfterWrites, seenAfter, List.append_eq]
      rw [ih t2 seen]
      tauto

theorem marksAfterWrites_writes (files : ℕ → List String) (w : ℕ) :
    ∀ (fs : List String) (seen : List (ℕ × String)),
      marksAfterWrites files (fs.map (fun f => Event.write w f)) seen := by
  intro fs
  induction fs with
  | nil => intro seen; trivial
  | cons f rest ih =>
    intro seen
    simp only [List.map_cons, marksAfterWrites]
    exact ih ((w, f) :: seen)

theorem seenAfter_writes (w : ℕ) :
    ∀ (fs : List String) (seen : List (ℕ × String)),
      seenAfter (fs.map (fun f => Event.write w f)) seen =
        (fs.reverse.map (fun f => (w, f))) ++ seen := by
  intro fs
  induction fs with
  | nil => intro seen; rfl
  | cons f rest ih =>
    intro seen
    simp only [List.map_cons, seenAfter, List.reverse_cons, List.map_append]
    rw [ih ((w, f) :: seen)]
    simp

theorem marksAfterWrites_okBlock (files : ℕ → List String) (w : ℕ)
    (seen : List (ℕ × String)) (hne : files w ≠ []) :
    marksAfterWrites files
      ((files w).map (fun f => Event.write w f) ++ [Event.mark_done w]) seen := by
  rw [marksAfterWrites_append]
  refine ⟨marksAfterWrites_writes files w _ seen, ?_⟩
  simp only [marksAfterWrites]
  refine ⟨⟨hne, ?_⟩, trivial⟩
  intro f hf
  rw [seenAfter_writes]
  apply List.mem_append_left
  simp only [List.mem_map, List.mem_reverse]
  exact ⟨f, hf, rfl⟩

theorem worker_foldl_trace (so : ℕ → ScrapeOutcome) :
    ∀ (l : List ℕ) (acc : ExportAcc),
      marksAfterWrites (widFiles so) acc.trace [] →
      marksAfterWrites (widFiles so) ((l.foldl (worker so) acc).trace) [] := by
  intro l
  induction l with
  | nil => intro acc h; exact h
  | cons w rest ih =>
    intro acc h
    rw [List.foldl_cons]
    apply ih
    by_cases hok : runOneWidStatus so w = WidStatus.ok
    · have htr : (worker so acc w).trace = acc.trace ++
          ((widFiles so w).map (fun f => Event.write w f) ++ [Event.mark_done w]) := by
        simp only [worker]
        rw [if_pos hok]
        exact List.append_assoc _ _ _
      rw [htr, marksAfterWrites_append]
      exact ⟨h, marksAfterWrites_okBlock (widFiles so) w _
        (widFiles_ne_nil_of_ok so w hok)⟩
    · have htr : (worker so acc w).trace =
          acc.trace ++ (widFiles so w).map (fun f => Event.write w f) := by
        simp only [worker]
        rw [if_neg hok]
      rw [htr, marksAfterWrites_append]
      exact ⟨h, marksAfterWrites_writes (widFiles so) w _ _⟩

theorem markedWids_append (t1 t2 : List Event) :
    markedWids (t1 ++ t2) = markedWids t1 ∪ markedWids t2 := by
  unfold markedWids
  rw [List.filterMap_append, List.toFinset_append]

theorem markedWids_writes (w : ℕ) :
    ∀ fs : List String, markedWids (fs.map (fun f => Event.write w f)) = ∅ := by
  intro fs
  induction fs with
  | nil => rfl
  | cons f rest ih =>
    simp only [List.map_cons, markedWids, List.filterMap_cons] at ih ⊢
    exact ih

theorem markedWids_single (w : ℕ) :
    markedWids [Event.mark_done w] = {w} := rfl

theorem worker_foldl_marked (so : ℕ → ScrapeOutcome) :
    ∀ (l : List ℕ) (acc : ExportAcc),
      markedWids ((l.foldl (worker so) acc).trace) =
        markedWids acc.trace ∪
          (l.filter (fun w => runOneWidStatus so w == WidStatus.ok)).toFinset := by
  intro l
  induction l with
  | nil => intro acc; simp
  | cons w rest ih =>
    intro acc
    rw [List.foldl_cons, ih]
    by_cases hok : runOneWidStatus so w = WidStatus.ok
    · have htr : (worker so acc w).trace = acc.trace ++
          ((widFiles so w).map (fun f => Event.write w f) ++ [Event.mark_done w]) := by
        simp only [worker]
        rw [if_pos hok]
        exact List.append_assoc _ _ _
      rw [htr, markedWids_append, markedWids_append, markedWids_writes,
        markedWids_single, List.filter_cons_of_pos (by simp [hok])]
      ext x
      simp only [Finset.mem_union, Finset.mem_insert, Finset.mem_singleton,
        Finset.not_mem_empty, List.toFinset_cons, false_or]
      tauto
    · have htr : (worker so acc w).trace =
          acc.trace ++ (widFiles so w).map (fun f => Event.write w f) := by
        simp only [worker]
        rw [if_neg hok]
      rw [htr, markedWids_append, markedWids_writes,
        List.filter_cons_of_neg (by simp [hok])]
      simp

theorem fpp_done (po : ℕ → PageOutcome) (cap : ℕ) (acc : ExportState × ℕ) (p : ℕ) :
    (fetch_and_process_page po cap acc p).1.done_wids = acc.1.done_wids := by
  obtain ⟨s, c⟩ := acc
  simp only [fetch_and_process_page]
  split_ifs
  · rfl
  · cases po p <;> rfl

theorem fpp_monotone (po : ℕ → PageOutcome) (cap : ℕ) (acc : ExportState × ℕ) (p : ℕ) :
    acc.1.discovered_wids ⊆ (fetch_and_process_page po cap acc p).1.discovered_wids ∧
    acc.1.processed_workout_list_pages ⊆
      (fetch_and_process_page po cap acc p).1.processed_workout_list_pages := by
  obtain ⟨s, c⟩ := acc
  simp only [fetch_and_process_page]
  split_ifs
  · exact ⟨Finset.Subset.refl _, Finset.Subset.refl _⟩
  · cases po p with
    | ok wids => exact ⟨Finset.subset_union_left, Finset.subset_insert _ _⟩
    | httpError status => exact ⟨Finset.Subset.refl _, Finset.Subset.refl _⟩
    | otherError => exact ⟨Finset.Subset.refl _, Finset.Subset.refl _⟩

theorem fpp_of_httpError (po : ℕ → PageOutcome) (cap : ℕ) (acc : ExportState × ℕ)
    (p status : ℕ) (h : po p = PageOutcome.httpError status) :
    fetch_and_process_page po cap acc p = acc := by
  obtain ⟨s, c⟩ := acc
  simp only [fetch_and_process_page, h]
  split_ifs <;> rfl

theorem fpp_foldl_done (po : ℕ → PageOutcome) (cap : ℕ) :
    ∀ (l : List ℕ) (acc : ExportState × ℕ),
      (l.foldl (fetch_and_process_page po cap) acc).1.done_wids = acc.1.done_wids := by
  intro l
  induction l with
  | nil => intro acc; rfl
  | cons p rest ih =>
    intro acc
    rw [List.foldl_cons, ih, fpp_done]

theorem fpp_foldl_monotone (po : ℕ → PageOutcome) (cap : ℕ) :
    ∀ (l : List ℕ) (acc : ExportState × ℕ),
      acc.1.discovered_wids ⊆
        (l.foldl (fetch_and_process_page po cap) acc).1.discovered_wids ∧
      acc.1.processed_workout_list_pages ⊆
        (l.foldl (fetch_and_process_page po cap) acc).1.processed_workout_list_pages := by
  intro l
  induction l with
  | nil => intro acc; exact ⟨Finset.Subset.refl _, Finset.Subset.refl _⟩
  | cons p rest ih =>
    intro acc
    rw [List.foldl_cons]
    obtain ⟨h1, h2⟩ := ih (fetch_and_process_page po cap acc p)
    obtain ⟨g1, g2⟩ := fpp_monotone po cap acc p
    exact ⟨g1.trans h1, g2.trans h2⟩

theorem foldl_erase_of_fixed {α σ : Type} [DecidableEq α] (f : σ → α → σ) (a : α)
    (hfix : ∀ s, f s a = s) :
    ∀ (l : List α) (init : σ), l.foldl f init = (l.erase a).foldl f init := by
  intro l
  induction l with
  | nil => intro init; rfl
  | cons b rest ih =>
    intro init
    by_cases hb : b = a
    · subst hb
      rw [List.erase_cons_head, List.foldl_cons, hfix]
    · rw [List.erase_cons_tail (by simp [hb]), List.foldl_cons, List.foldl_cons, ih]

theorem foldStates_all {σ α : Type} (f : σ → α → σ) (P : σ → Prop) :
    ∀ (l : List α) (init : σ), (∀ s a, a ∈ l → P s → P (f s a)) → P init →
      ∀ s ∈ foldStates f init l, P s := by
  intro l
  induction l with
  | nil =>
    intro init _ hinit s hs
    simp only [foldStates, List.mem_singleton] at hs
    exact hs ▸ hinit
  | cons a rest ih =>
    intro init hstep hinit s hs
    simp only [foldStates] at hs
    rcases List.mem_cons.mp hs with h | h
    · exact h ▸ hinit
    · exact ih (f init a) (fun s b hb => hstep s b (List.mem_cons_of_mem a hb))
        (hstep init a (List.mem_cons_self a rest) hinit) s h

theorem foldl_mem_foldStates {σ α : Type} (f : σ → α → σ) :
    ∀ (l : List α) (init : σ), l.foldl f init ∈ foldStates f init l := by
  intro l
  induction l with
  | nil => intro init; simp [foldStates]
  | cons a rest ih =>
    intro init
    simp only [foldStates, List.foldl_cons]
    exact List.mem_cons_of_mem _ (ih (f init a))

theorem discovery_foldl_ok (po : ℕ → PageOutcome) (cap : ℕ) :
    ∀ (l : List ℕ) (s : ExportState) (c : ℕ),
      (∀ p ∈ l, ∃ wids, po p = PageOutcome.ok wids) → c + l.length ≤ cap →
      (l.foldl (fetch_and_process_page po cap) (s, c)).1.processed_workout_list_pages
          = s.processed_workout_list_pages ∪ l.toFinset ∧
      s.discovered_wids ⊆
        (l.foldl (fetch_and_process_page po cap) (s, c)).1.discovered_wids := by
  intro l
  induction l with
  | nil => intro s c _ _; simp
  | cons p rest ih =>
    intro s c hok hcap
    obtain ⟨wids, hw⟩ := hok p (by simp)
    have hlt : ¬ cap ≤ c := by
      simp only [List.length_cons] at hcap
      omega
    rw [List.foldl_cons]
    have hstep : fetch_and_process_page po cap (s, c) p =
        ({ s with
            discovered_wids := s.discovered_wids ∪ wids,
            processed_workout_list_pages := insert p s.processed_workout_list_pages },
         c + 1) := by
      simp only [fetch_and_process_page, hw]
      rw [if_neg hlt]
    rw [hstep]
    obtain ⟨h1, h2⟩ := ih _ (c + 1) (fun q hq => hok q (List.mem_cons_of_mem p hq))
      (by simp only [List.length_cons] at hcap; omega)
    constructor
    · rw [h1]
      ext x
      simp only [Finset.mem_union, Finset.mem_insert, List.toFinset_cons, List.mem_toFinset]
      tauto
    · exact Finset.subset_union_left.trans h2

theorem run_full_export_none (o : Oracle) (cap : ℕ) (s0 : ExportState)
    (h : o.pagination = none) :
    run_full_export o cap s0 = ⟨⟨RunStatus.fatal, [], []⟩, s0, []⟩ := by
  unfold run_full_export
  rw [h]

theorem run_full_export_some (o : Oracle) (cap : ℕ) (s0 : ExportState) (m : ℕ)
    (h : o.pagination = some m) :
    run_full_export o cap s0 =
      (if computePending (runDiscovery o.page cap m s0).1.discovered_wids
            (runDiscovery o.page cap m s0).1.done_wids = [] then
        ⟨⟨RunStatus.empty, [], []⟩, (runDiscovery o.page cap m s0).1, []⟩
      else
        ⟨⟨RunStatus.ok,
          (((computePending (runDiscovery o.page cap m s0).1.discovered_wids
                (runDiscovery o.page cap m s0).1.done_wids).foldl (worker o.scrape)
              ⟨(runDiscovery o.page cap m s0).1, [], []⟩).results.filter
            (fun r => r.2 == WidStatus.ok)).map (fun r => r.1),
          (((computePending (runDiscovery o.page cap m s0).1.discovered_wids
                (runDiscovery o.page cap m s0).1.done_wids).foldl (worker o.scrape)
              ⟨(runDiscovery o.page cap m s0).1, [], []⟩).results.filter
            (fun r => !(r.2 == WidStatus.ok))).map (fun r => r.1)⟩,
          ((computePending (runDiscovery o.page cap m s0).1.discovered_wids
              (runDiscovery o.page cap m s0).1.done_wids).foldl (worker o.scrape)
            ⟨(runDiscovery o.page cap m s0).1, [], []⟩).state,
          ((computePending (runDiscovery o.page cap m s0).1.discovered_wids
              (runDiscovery o.page cap m s0).1.done_wids).foldl (worker o.scrape)
            ⟨(runDiscovery o.page cap m s0).1, [], []⟩).trace⟩) := by
  unfold run_full_export
  rw [h]

theorem runPending_none (o : Oracle) (cap : ℕ) (s0 : ExportState)
    (h : o.pagination = none) : runPending o cap s0 = [] := by
  unfold runPending
  rw [h]

theorem runPending_some (o : Oracle) (cap : ℕ) (s0 : ExportState) (m : ℕ)
    (h : o.pagination = some m) :
    runPending o cap s0 =
      computePending (runDiscovery o.page cap m s0).1.discovered_wids
        (runDiscovery o.page cap m s0).1.done_wids := by
  unfold runPending
  rw [h]

theorem runStates_none (o : Oracle) (cap : ℕ) (s0 : ExportState)
    (h : o.pagination = none) : runStates o cap s0 = [s0] := by
  unfold runStates
  rw [h]

theorem runStates_some (o : Oracle) (cap : ℕ) (s0 : ExportState) (m : ℕ)
    (h : o.pagination = some m) :
    runStates o cap s0 =
      (foldStates (fetch_and_process_page o.page cap) (s0, 0)
          (missingPages m s0)).map Prod.fst ++
        (foldStates (worker o.scrape) ⟨(runDiscovery o.page cap m s0).1, [], []⟩
          (computePending (runDiscovery o.page cap m s0).1.discovered_wids
            (runDiscovery o.page cap m s0).1.done_wids)).map ExportAcc.state := by
  unfold runStates
  rw [h]

theorem exported_eq_filter (so : ℕ → ScrapeOutcome) (l : List ℕ) (acc : ExportAcc)
    (hacc : acc.results = []) :
    ((l.foldl (worker so) acc).results.filter (fun r => r.2 == WidStatus.ok)).map
        (fun r => r.1) =
      l.filter (fun w => runOneWidStatus so w == WidStatus.ok) := by
  rw [worker_foldl_results, hacc, List.nil_append, List.filter_map, List.map_map]
  have hid : ((fun r : ℕ × WidStatus => r.1) ∘ fun w => (w, runOneWidStatus so w)) = id := rfl
  rw [hid, List.map_id]
  rfl

theorem runDiscovery_done (o : Oracle) (cap m : ℕ) (s0 : ExportState) :
    (runDiscovery o.page cap m s0).1.done_wids = s0.done_wids := by
  unfold runDiscovery
  exact fpp_foldl_done o.page cap _ _

theorem runStates_inv (o : Oracle) (cap : ℕ) (s0 : ExportState)
    (h0 : s0.done_wids ⊆ s0.discovered_wids) :
    ∀ s ∈ runStates o cap s0, s.done_wids ⊆ s.discovered_wids := by
  intro s hs
  rcases hp : o.pagination with _ | m
  · rw [runStates_none o cap s0 hp] at hs
    simp only [List.mem_singleton] at hs
    exact hs ▸ h0
  · rw [runStates_some o cap s0 m hp] at hs
    rw [List.mem_append] at hs
    rcases hs with hs | hs
    · rw [List.mem_map] at hs
      obtain ⟨acc, hacc, rfl⟩ := hs
      refine foldStates_all (fetch_and_process_page o.page cap)
        (fun t : ExportState × ℕ => t.1.done_wids ⊆ t.1.discovered_wids)
        (missingPages m s0) (s0, 0) ?_ h0 acc hacc
      intro t a _ ht
      rw [fpp_done]
      exact ht.trans (fpp_monotone o.page cap t a).1
    · rw [List.mem_map] at hs
      obtain ⟨acc, hacc, rfl⟩ := hs
      have hinv1 : (runDiscovery o.page cap m s0).1.done_wids ⊆
          (runDiscovery o.page cap m s0).1.discovered_wids := by
        unfold runDiscovery
        refine foldStates_all (fetch_and_process_page o.page cap)
          (fun t : ExportState × ℕ => t.1.done_wids ⊆ t.1.discovered_wids)
          (missingPages m s0) (s0, 0) ?_ h0 _ (foldl_mem_foldStates _ _ _)
        intro t a _ ht
        rw [fpp_done]
        exact ht.trans (fpp_monotone o.page cap t a).1
      have hmain := foldStates_all (worker o.scrape)
        (fun t : ExportAcc => t.state.done_wids ⊆ t.state.discovered_wids ∧
          t.state.discovered_wids = (runDiscovery o.page cap m s0).1.discovered_wids)
        (computePending (runDiscovery o.page cap m s0).1.discovered_wids
          (runDiscovery o.page cap m s0).1.done_wids)
        ⟨(runDiscovery o.page cap m s0).1, [], []⟩ ?_ ⟨hinv1, rfl⟩ acc hacc
      · exact hmain.1
      · intro t a ha ht
        refine ⟨?_, ?_⟩
        · rw [worker_state_done, worker_state_discovered]
          split_ifs
          · rw [Finset.insert_subset_iff]
            refine ⟨?_, ht.1⟩
            rw [ht.2]
            exact computePending_mem_discovered _ _ a ha
          · exact ht.1
        · rw [worker_state_discovered]
          exact ht.2

theorem run_state_mem_runStates (o : Oracle) (cap : ℕ) (s0 : ExportState) :
    (run_full_export o cap s0).state ∈ runStates o cap s0 := by
  rcases hp : o.pagination with _ | m
  · rw [run_full_export_none o cap s0 hp, runStates_none o cap s0 hp]
    simp
  · rw [run_full_export_some o cap s0 m hp, runStates_some o cap s0 m hp]
    by_cases hpend : computePending (runDiscovery o.page cap m s0).1.discovered_wids
        (runDiscovery o.page cap m s0).1.done_wids = []
    · rw [if_pos hpend]
      apply List.mem_append_left
      rw [List.mem_map]
      refine ⟨(missingPages m s0).foldl (fetch_and_process_page o.page cap) (s0, 0),
        foldl_mem_foldStates _ _ _, rfl⟩
    · rw [if_neg hpend]
      apply List.mem_append_right
      rw [List.mem_map]
      exact ⟨_, foldl_mem_foldStates _ _ _, rfl⟩

/-- C1: the invariant `CompletedSet ⊆ DiscoveredSet` holds in every state
reachable from the empty state by orchestrator runs (with any oracle, any
session cap, failures included), and it holds at every intermediate state
of every run — after the load, after each discovery page task, and after
each worker's `mark_done`. -/
theorem completed_subset_discovered :
    (∀ s : ExportState, ReachableState s → s.done_wids ⊆ s.discovered_wids) ∧
    (∀ (o : Oracle) (cap : ℕ) (s0 : ExportState),
        s0.done_wids ⊆ s0.discovered_wids →
        ∀ s ∈ runStates o cap s0, s.done_wids ⊆ s.discovered_wids) := by
  have hfinal : ∀ (o : Oracle) (cap : ℕ) (s0 : ExportState),
      s0.done_wids ⊆ s0.discovered_wids →
      (run_full_export o cap s0).state.done_wids ⊆
        (run_full_export o cap s0).state.discovered_wids :=
    fun o cap s0 h0 => runStates_inv o cap s0 h0 _ (run_state_mem_runStates o cap s0)
  refine ⟨?_, runStates_inv⟩
  intro s hreach
  induction hreach with
  | refl => exact Finset.empty_subset _
  | tail _ hstep ih =>
    obtain ⟨o, cap, hrun⟩ := hstep
    rw [← hrun]
    exact hfinal o cap _ ih

/-- Witness for C1 at the fresh empty state (reachable by zero runs). -/
theorem completed_subset_discovered_witness :
    ExportState.fresh.done_wids ⊆ ExportState.fresh.discovered_wids :=
  completed_subset_discovered.1 ExportState.fresh Relation.ReflTransGen.refl

/-- C4: the orchestrator's pending set is exactly discovered minus done;
the pending list it iterates is strictly descending; and the run
summary's exported list is the ok-filtered pending list, hence itself in
strictly descending order. -/
theorem pending_descending_order :
    (∀ D C : Finset ℕ,
        (computePending D C).toFinset = D \ C ∧
        List.Sorted (· > ·) (computePending D C)) ∧
    (∀ (o : Oracle) (cap : ℕ) (s0 : ExportState),
        (run_full_export o cap s0).result.exported =
          (runPending o cap s0).filter
            (fun w => runOneWidStatus o.scrape w == WidStatus.ok) ∧
        List.Sorted (· > ·) ((run_full_export o cap s0).result.exported)) := by
  refine ⟨fun D C => ⟨computePending_toFinset D C, computePending_sorted_gt D C⟩, ?_⟩
  intro o cap s0
  rcases hp : o.pagination with _ | m
  · rw [run_full_export_none o cap s0 hp, runPending_none o cap s0 hp]
    simp [List.Sorted]
  · rw [run_full_export_some o cap s0 m hp, runPending_some o cap s0 m hp]
    by_cases hpend : computePending (runDiscovery o.page cap m s0).1.discovered_wids
        (runDiscovery o.page cap m s0).1.done_wids = []
    · rw [if_pos hpend, hpend]
      simp [List.Sorted]
    · rw [if_neg hpend]
      constructor
      · exact exported_eq_filter o.scrape _ _ rfl
      · rw [show (⟨⟨RunStatus.ok, _, _⟩, _, _⟩ : RunOutput).result.exported =
            ((((computePending (runDiscovery o.page cap m s0).1.discovered_wids
                (runDiscovery o.page cap m s0).1.done_wids).foldl (worker o.scrape)
              ⟨(runDiscovery o.page cap m s0).1, [], []⟩).results.filter
              (fun r => r.2 == WidStatus.ok)).map (fun r => r.1)) from rfl]
        rw [exported_eq_filter o.scrape _ _ rfl]
        exact List.Pairwise.sublist (List.filter_sublist _) (computePending_sorted_gt _ _)

/-- C2: in every run, every `mark_done` event in the storage trace is
preceded by the writes of all of that identifier's artifact files (and
there is at least one such file); and an identifier is in the final
`done_wids` only if it was already done initially or a `mark_done` for
it is in the trace. -/
theorem artifact_written_before_mark_done (o : Oracle) (cap : ℕ) (s0 : ExportState) :
    marksAfterWrites (widFiles o.scrape) (run_full_export o cap s0).trace [] ∧
    (run_full_export o cap s0).state.done_wids =
      s0.done_wids ∪ markedWids ((run_full_export o cap s0).trace) := by
  rcases hp : o.pagination with _ | m
  · rw [run_full_export_none o cap s0 hp]
    exact ⟨trivial, by simp [markedWids]⟩
  · rw [run_full_export_some o cap s0 m hp]
    by_cases hpend : computePending (runDiscovery o.page cap m s0).1.discovered_wids
        (runDiscovery o.page cap m s0).1.done_wids = []
    · rw [if_pos hpend]
      refine ⟨trivial, ?_⟩
      rw [runDiscovery_done]
      simp [markedWids]
    · rw [if_neg hpend]
      constructor
      · exact worker_foldl_trace o.scrape _ _ trivial
      · obtain ⟨_, _, h3⟩ := worker_foldl_state o.scrape
          (computePending (runDiscovery o.page cap m s0).1.discovered_wids
            (runDiscovery o.page cap m s0).1.done_wids)
          ⟨(runDiscovery o.page cap m s0).1, [], []⟩
        rw [h3, worker_foldl_marked, runDiscovery_done]
        rw [show markedWids [] = ∅ from rfl]
        simp

theorem run1_final (o : Oracle) (cap m : ℕ) (s0 : ExportState)
    (hpag : o.pagination = some m) (hcap : m ≤ cap)
    (hpages : ∀ p, ∃ wids, o.page p = PageOutcome.ok wids)
    (hok : ∀ w, runOneWidStatus o.scrape w = WidStatus.ok) :
    Finset.Icc 1 m ⊆ (run_full_export o cap s0).state.processed_workout_list_pages ∧
    (run_full_export o cap s0).state.discovered_wids ⊆
      (run_full_export o cap s0).state.done_wids := by
  rw [run_full_export_some o cap s0 m hpag]
  have hlen : (missingPages m s0).length ≤ cap := by
    unfold missingPages
    rw [Finset.length_sort]
    calc (Finset.Icc 1 m \ s0.processed_workout_list_pages).card
        ≤ (Finset.Icc 1 m).card := Finset.card_le_card Finset.sdiff_subset
      _ = m := by rw [Nat.card_Icc]; omega
      _ ≤ cap := hcap
  obtain ⟨hpg, _⟩ := discovery_foldl_ok o.page cap (missingPages m s0) s0 0
    (fun p _ => hpages p) (by simpa using hlen)
  have hpages1 : Finset.Icc 1 m ⊆
      (runDiscovery o.page cap m s0).1.processed_workout_list_pages := by
    unfold runDiscovery
    rw [hpg]
    intro x hx
    rw [Finset.mem_union]
    by_cases hxp : x ∈ s0.processed_workout_list_pages
    · exact Or.inl hxp
    · right
      unfold missingPages
      rw [List.mem_toFinset, Finset.mem_sort]
      exact Finset.mem_sdiff.mpr ⟨hx, hxp⟩
  by_cases hpend : computePending (runDiscovery o.page cap m s0).1.discovered_wids
      (runDiscovery o.page cap m s0).1.done_wids = []
  · rw [if_pos hpend]
    refine ⟨hpages1, ?_⟩
    have hempty : (runDiscovery o.page cap m s0).1.discovered_wids \
        (runDiscovery o.page cap m s0).1.done_wids = ∅ := by
      have h := computePending_toFinset (runDiscovery o.page cap m s0).1.discovered_wids
        (runDiscovery o.page cap m s0).1.done_wids
      rw [hpend] at h
      simpa using h.symm
    exact Finset.sdiff_eq_empty_iff_subset.mp hempty
  · rw [if_neg hpend]
    obtain ⟨hd1, hp1, hd3⟩ := worker_foldl_state o.scrape
      (computePending (runDiscovery o.page cap m s0).1.discovered_wids
        (runDiscovery o.page cap m s0).1.done_wids)
      ⟨(runDiscovery o.page cap m s0).1, [], []⟩
    constructor
    · rw [hp1]
      exact hpages1
    · rw [hd1, hd3]
      have hfilter : (computePending (runDiscovery o.page cap m s0).1.discovered_wids
            (runDiscovery o.page cap m s0).1.done_wids).filter
          (fun w => runOneWidStatus o.scrape w == WidStatus.ok) =
          computePending (runDiscovery o.page cap m s0).1.discovered_wids
            (runDiscovery o.page cap m s0).1.done_wids :=
        List.filter_eq_self.mpr (fun a _ => by simp [hok a])
      rw [hfilter]
      intro x hx
      rw [Finset.mem_union]
      by_cases hxd : x ∈ (runDiscovery o.page cap m s0).1.done_wids
      · exact Or.inl hxd
      · right
        rw [List.mem_toFinset, ← List.mem_toFinset (l :=
          computePending (runDiscovery o.page cap m s0).1.discovered_wids
            (runDiscovery o.page cap m s0).1.done_wids)]
        rw [computePending_toFinset]
        exact Finset.mem_sdiff.mpr ⟨hx, hxd⟩

/-- Idempotence under the intended `run_one_wid` semantics: with scrape
outcomes able to deliver segments (the success path `run_one_wid`'s own
code is written to consume, unreachable in the source as written — see
`scrapeOracleActual`), two runs against an unchanged healthy remote
(pagination found, all pages served, a segment per record, cap covering
the pages) leave the second run with an empty pending set and the Empty
summary.  This is the behavior the idempotent-re-run property asks for;
the claim theorem below shows the source never reaches it. -/
theorem second_run_empty (o : Oracle) (cap maxPageNum : ℕ) (s0 : ExportState)
    (hpag : o.pagination = some maxPageNum)
    (hcap : maxPageNum ≤ cap)
    (hpages : ∀ p, ∃ wids, o.page p = PageOutcome.ok wids)
    (hscrape : ∀ w, ∃ seg rest, o.scrape w = ScrapeOutcome.segs (seg :: rest)) :
    (run_full_export o cap (run_full_export o cap s0).state).result =
      ⟨RunStatus.empty, [], []⟩ := by
  have hok : ∀ w, runOneWidStatus o.scrape w = WidStatus.ok := by
    intro w
    obtain ⟨seg, rest, hw⟩ := hscrape w
    unfold runOneWidStatus
    rw [hw]
  obtain ⟨hpg, hsub⟩ := run1_final o cap maxPageNum s0 hpag hcap hpages hok
  rw [run_full_export_some o cap _ maxPageNum hpag]
  have hmiss : missingPages maxPageNum (run_full_export o cap s0).state = [] := by
    unfold missingPages
    rw [Finset.sdiff_eq_empty_iff_subset.mpr hpg, Finset.sort_empty]
  have hs2 : (runDiscovery o.page cap maxPageNum (run_full_export o cap s0).state).1 =
      (run_full_export o cap s0).state := by
    unfold runDiscovery
    rw [hmiss]
    rfl
  rw [hs2, computePending_eq_nil _ _ hsub]
  rw [if_pos rfl]

/-- Concrete listing oracle (a two-page listing) for the
intended-semantics idempotence instance and the C5 witness. -/
def pageOracleW : ℕ → PageOutcome := fun p =>
  if p = 2 then PageOutcome.ok {103} else PageOutcome.ok ({101, 102})

/-- Concrete segment-delivering scrape oracle for the
intended-semantics idempotence instance. -/
def scrapeOracleW : ℕ → ScrapeOutcome := fun _ =>
  ScrapeOutcome.segs [⟨"2020-01-01", 1⟩]

/-- Concrete healthy remote under the intended semantics. -/
def oracleW : Oracle := ⟨some 2, pageOracleW, scrapeOracleW⟩

/-- Concrete instance of the intended-semantics idempotence at the
two-page remote. -/
theorem second_run_empty_witness :
    (run_full_export oracleW 1000
        (run_full_export oracleW 1000 ExportState.fresh).state).result =
      ⟨RunStatus.empty, [], []⟩ :=
  second_run_empty oracleW 1000 2 ExportState.fresh rfl (by norm_num)
    (fun p => by
      by_cases h : p = 2
      · subst h
        exact ⟨{103}, rfl⟩
      · refine ⟨{101, 102}, ?_⟩
        show pageOracleW p = _
        unfold pageOracleW
        rw [if_neg h])
    (fun w => ⟨⟨"2020-01-01", 1⟩, [], rfl⟩)

theorem failed_eq_filter (so : ℕ → ScrapeOutcome) (l : List ℕ) (acc : ExportAcc)
    (hacc : acc.results = []) :
    ((l.foldl (worker so) acc).results.filter (fun r => !(r.2 == WidStatus.ok))).map
        (fun r => r.1) =
      l.filter (fun w => !(runOneWidStatus so w == WidStatus.ok)) := by
  rw [worker_foldl_results, hacc, List.nil_append, List.filter_map, List.map_map]
  have hid : ((fun r : ℕ × WidStatus => r.1) ∘ fun w => (w, runOneWidStatus so w)) = id := rfl
  rw [hid, List.map_id]
  rfl

theorem computePending_ne_nil (D C : Finset ℕ) (x : ℕ) (hxD : x ∈ D) (hxC : x ∉ C) :
    computePending D C ≠ [] := by
  intro h
  have ht := computePending_toFinset D C
  rw [h] at ht
  have hx : x ∈ D \ C := Finset.mem_sdiff.mpr ⟨hxD, hxC⟩
  rw [← ht] at hx
  simp at hx

/-- Concrete remote for the C5 failing input: the pagination resolves to
one listing page, and the per-identifier behavior is the source's
actual always-raising one. -/
def oracleActual : Oracle := ⟨some 1, pageOracleW, scrapeOracleActual⟩

/-- Concrete starting state for the C5 failing input: listing page 1
already processed, identifier 101 discovered, nothing done yet. -/
def stateActual : ExportState := ⟨∅, {1}, {101}⟩

/-- C5: the idempotent re-run the claim promises is unreachable in the
source.  `run_one_wid` iterates `scrape_workout(...)` with `async for`
(orchestrator.py line 57), but `scrape_workout` has no `yield` — it is
a plain coroutine — so the iteration raises `TypeError` for every
identifier: every per-identifier task has status "error", writes no
artifact, and nothing is ever marked done.  Consequently any run with a
non-empty pending set returns status "ok" with everything failed and
nothing exported and leaves `done_wids` unchanged, and the second run
against the unchanged remote re-attempts a non-empty pending set and
again returns status "ok" — never the Empty result the claim requires. -/
theorem second_run_repeats_pending_not_empty (o : Oracle) (cap : ℕ) (s0 : ExportState)
    (hfail : ∀ w, o.scrape w = ScrapeOutcome.fail)
    (hpend : runPending o cap s0 ≠ []) :
    (∀ w, runOneWidStatus o.scrape w = WidStatus.error ∧ widFiles o.scrape w = []) ∧
    (run_full_export o cap s0).result.status = RunStatus.ok ∧
    (run_full_export o cap s0).result.exported = [] ∧
    (run_full_export o cap s0).result.failed = runPending o cap s0 ∧
    (run_full_export o cap s0).state.done_wids = s0.done_wids ∧
    (run_full_export o cap (run_full_export o cap s0).state).result.status =
      RunStatus.ok ∧
    (run_full_export o cap (run_full_export o cap s0).state).result.exported = [] ∧
    (run_full_export o cap (run_full_export o cap s0).state).result ≠
      ⟨RunStatus.empty, [], []⟩ := by
  have hstatus : ∀ w, runOneWidStatus o.scrape w = WidStatus.error := by
    intro w
    unfold runOneWidStatus
    rw [hfail w]
  have hwfiles : ∀ w, widFiles o.scrape w = [] := by
    intro w
    unfold widFiles
    rw [hfail w]
  rcases hp : o.pagination with _ | m
  · exact absurd (runPending_none o cap s0 hp) hpend
  have hrun : ∀ s : ExportState,
      computePending (runDiscovery o.page cap m s).1.discovered_wids
        (runDiscovery o.page cap m s).1.done_wids ≠ [] →
      (run_full_export o cap s).result.status = RunStatus.ok ∧
      (run_full_export o cap s).result.exported = [] ∧
      (run_full_export o cap s).result.failed =
        computePending (runDiscovery o.page cap m s).1.discovered_wids
          (runDiscovery o.page cap m s).1.done_wids ∧
      (run_full_export o cap s).state.done_wids = s.done_wids ∧
      (run_full_export o cap s).state.discovered_wids =
        (runDiscovery o.page cap m s).1.discovered_wids := by
    intro s hne
    rw [run_full_export_some o cap s m hp, if_neg hne]
    obtain ⟨hd1, _, hd3⟩ := worker_foldl_state o.scrape
      (computePending (runDiscovery o.page cap m s).1.discovered_wids
        (runDiscovery o.page cap m s).1.done_wids)
      ⟨(runDiscovery o.page cap m s).1, [], []⟩
    refine ⟨rfl, ?_, ?_, ?_, hd1⟩
    · rw [exported_eq_filter o.scrape _ _ rfl]
      apply List.filter_eq_nil_iff.mpr
      intro a _
      simp [hstatus a]
    · rw [failed_eq_filter o.scrape _ _ rfl]
      apply List.filter_eq_self.mpr
      intro a _
      simp [hstatus a]
    · rw [hd3, List.filter_eq_nil_iff.mpr (fun a _ => by simp [hstatus a]),
        List.toFinset_nil, Finset.union_empty]
      exact runDiscovery_done o cap m s
  have hpend1 : computePending (runDiscovery o.page cap m s0).1.discovered_wids
      (runDiscovery o.page cap m s0).1.done_wids ≠ [] := by
    rw [runPending_some o cap s0 m hp] at hpend
    exact hpend
  obtain ⟨hst1, hex1, hfa1, hdone1, hdisc1⟩ := hrun s0 hpend1
  obtain ⟨x, hx⟩ := List.exists_mem_of_ne_nil _ hpend1
  have hxs : x ∈ (runDiscovery o.page cap m s0).1.discovered_wids \
      (runDiscovery o.page cap m s0).1.done_wids := by
    rw [← computePending_toFinset]
    exact List.mem_toFinset.mpr hx
  obtain ⟨hxD, hxC⟩ := Finset.mem_sdiff.mp hxs
  rw [runDiscovery_done] at hxC
  set s1 := (run_full_export o cap s0).state with hs1def
  have hmono2 : s1.discovered_wids ⊆
      (runDiscovery o.page cap m s1).1.discovered_wids :=
    (fpp_foldl_monotone o.page cap (missingPages m s1) (s1, 0)).1
  have hxD2 : x ∈ (runDiscovery o.page cap m s1).1.discovered_wids := by
    apply hmono2
    rw [hdisc1]
    exact hxD
  have hxC2 : x ∉ (runDiscovery o.page cap m s1).1.done_wids := by
    rw [runDiscovery_done, hdone1]
    exact hxC
  have hpend2 : computePending (runDiscovery o.page cap m s1).1.discovered_wids
      (runDiscovery o.page cap m s1).1.done_wids ≠ [] :=
    computePending_ne_nil _ _ x hxD2 hxC2
  obtain ⟨hst2, hex2, _, _, _⟩ := hrun s1 hpend2
  refine ⟨fun w => ⟨hstatus w, hwfiles w⟩, hst1, hex1, ?_, hdone1, hst2, hex2, ?_⟩
  · rw [hfa1, runPending_some o cap s0 m hp]
  · intro heq
    have hcontra : (run_full_export o cap s1).result.status = RunStatus.empty := by
      rw [heq]
    rw [hst2] at hcontra
    simp at hcontra

/-- Witness for C5's failing input: against the concrete one-page
remote with identifier 101 pending, under the source's actual
always-error `run_one_wid`, the second run does not return Empty. -/
theorem second_run_repeats_pending_not_empty_witness :
    (run_full_export oracleActual 5
        (run_full_export oracleActual 5 stateActual).state).result ≠
      ⟨RunStatus.empty, [], []⟩ :=
  (second_run_repeats_pending_not_empty oracleActual 5 stateActual
    (fun _ => rfl)
    (by
      rw [runPending_some oracleActual 5 stateActual 1 rfl]
      have hm : missingPages 1 stateActual = [] := by
        unfold missingPages
        rw [show stateActual.processed_workout_list_pages = {1} from rfl,
          Finset.Icc_self, Finset.sdiff_self, Finset.sort_empty]
      have hsd : (runDiscovery oracleActual.page 5 1 stateActual).1 = stateActual := by
        unfold runDiscovery
        rw [hm]
        rfl
      rw [hsd]
      exact computePending_ne_nil _ _ 101 (by decide) (by decide))).2.2.2.2.2.2.2

/-- C8: a page whose fetch fails with HTTP 404 beyond page 1 takes the
"assume end of list" branch; its task leaves the state untouched; the
whole crawl computes the same result as if that page were absent (the
other pages' processing continues); and the crawl only ever grows the
discovered and processed sets, so previously made progress is kept. -/
theorem page404_skipped_crawl_continues
    (po : ℕ → PageOutcome) (cap n : ℕ)
    (h404 : po n = PageOutcome.httpError 404) (hn : 1 < n) :
    (∀ acc : ExportState × ℕ, fetch_and_process_page po cap acc n = acc) ∧
    pageFailureAction n (po n) = some PageFailureAction.skipPastEnd ∧
    (∀ (l : List ℕ) (acc : ExportState × ℕ),
        l.foldl (fetch_and_process_page po cap) acc =
          (l.erase n).foldl (fetch_and_process_page po cap) acc) ∧
    (∀ (l : List ℕ) (acc : ExportState × ℕ),
        acc.1.discovered_wids ⊆
          (l.foldl (fetch_and_process_page po cap) acc).1.discovered_wids ∧
        acc.1.processed_workout_list_pages ⊆
          (l.foldl (fetch_and_process_page po cap) acc).1.processed_workout_list_pages) := by
  have hfix : ∀ acc, fetch_and_process_page po cap acc n = acc :=
    fun acc => fpp_of_httpError po cap acc n 404 h404
  refine ⟨hfix, ?_, ?_, fun l acc => fpp_foldl_monotone po cap l acc⟩
  · rw [h404]
    show (if (404 : ℕ) = 404 ∧ 1 < n then some PageFailureAction.skipPastEnd
      else some PageFailureAction.stopThisPage) = some PageFailureAction.skipPastEnd
    rw [if_pos ⟨rfl, hn⟩]
  · intro l acc
    exact foldl_erase_of_fixed _ n hfix l acc

/-- Concrete page oracle for the C8 witness: page 3 of the listing
races past the end and returns 404. -/
def pageOracle404 : ℕ → PageOutcome := fun p =>
  if p = 3 then PageOutcome.httpError 404 else PageOutcome.ok {p}

/-- Witness for C8 at page 3 of the concrete listing. -/
theorem page404_skipped_crawl_continues_witness :
    pageFailureAction 3 (pageOracle404 3) = some PageFailureAction.skipPastEnd :=
  (page404_skipped_crawl_continues pageOracle404 1000 3 rfl (by norm_num)).2.1

theorem suffix_getLast? {l1 l2 : List Char} (h : l1 <:+ l2) (a : Char)
    (h1 : l1.getLast? = some a) : l2.getLast? = some a := by
  obtain ⟨t, rfl⟩ := h
  rw [List.getLast?_append, h1]
  rfl

theorem widJsonSuffix_getLast (w : ℕ) :
    (widJsonSuffix w).data.getLast? = some ('n') := by
  unfold widJsonSuffix
  rw [String.data_append, List.getLast?_append]
  rfl

theorem segFileName_getLast (w : ℕ) (seg : ExportSeg) :
    (segFileName w seg).data.getLast? = some ('x') := by
  unfold segFileName
  rw [String.data_append, List.getLast?_append]
  rfl

theorem tcx_never_matches_widJsonGlob (w w' : ℕ) (seg : ExportSeg) :
    matchesWidJsonGlob w' (segFileName w seg) = false := by
  unfold matchesWidJsonGlob
  cases hb : (widJsonSuffix w').data.isSuffixOf (segFileName w seg).data with
  | false => rfl
  | true =>
    exfalso
    have hsuf : (widJsonSuffix w').data <:+ (segFileName w seg).data :=
      List.isSuffixOf_iff_suffix.mp hb
    have h1 := suffix_getLast? hsuf ('n') (widJsonSuffix_getLast w')
    rw [segFileName_getLast] at h1
    exact absurd (Option.some.inj h1) (by decide)

theorem refresh_wid_step_fields (acc : ExportState × Finset String) (w : ℕ) :
    (refresh_wid_step acc w).1.done_wids = acc.1.done_wids.erase w ∧
    (refresh_wid_step acc w).1.discovered_wids = acc.1.discovered_wids ∧
    (refresh_wid_step acc w).1.processed_workout_list_pages =
      acc.1.processed_workout_list_pages ∧
    (refresh_wid_step acc w).2 =
      acc.2.filter (fun f => matchesWidJsonGlob w f = false) := by
  obtain ⟨st, files⟩ := acc
  simp only [refresh_wid_step]
  split_ifs with h
  · simp
  · simp [Finset.erase_eq_self.mpr h]

theorem scoped_reset_props :
    ∀ (wids : List ℕ) (st : ExportState) (files : Finset String),
      (scoped_reset wids st files).1.done_wids = st.done_wids \ wids.toFinset ∧
      (scoped_reset wids st files).1.discovered_wids = st.discovered_wids ∧
      (scoped_reset wids st files).1.processed_workout_list_pages =
        st.processed_workout_list_pages ∧
      (scoped_reset wids st files).2 =
        files.filter (fun f => ∀ w ∈ wids, matchesWidJsonGlob w f = false) := by
  intro wids
  induction wids with
  | nil =>
    intro st files
    refine ⟨by simp [scoped_reset], rfl, rfl, ?_⟩
    have htriv : ∀ x ∈ files, ∀ w ∈ ([] : List ℕ), matchesWidJsonGlob w x = false := by
      intro x _ w hw
      simp at hw
    rw [Finset.filter_true_of_mem htriv]
    rfl
  | cons w ws ih =>
    intro st files
    obtain ⟨e1, e2, e3, e4⟩ := refresh_wid_step_fields (st, files) w
    have hsr : scoped_reset (w :: ws) st files =
        scoped_reset ws (refresh_wid_step (st, files) w).1
          (refresh_wid_step (st, files) w).2 := rfl
    rw [hsr]
    obtain ⟨i1, i2, i3, i4⟩ := ih (refresh_wid_step (st, files) w).1
      (refresh_wid_step (st, files) w).2
    refine ⟨?_, ?_, ?_, ?_⟩
    · rw [i1, e1, Finset.erase_eq, sdiff_sdiff_left, List.toFinset_cons, Finset.insert_eq]
      rfl
    · rw [i2, e2]
    · rw [i3, e3]
    · rw [i4, e4, Finset.filter_filter]
      apply Finset.filter_congr
      intro x _
      simp [List.forall_mem_cons]

/-- C9: the scoped reset removes exactly the named identifiers from
`done_wids`, leaves `discovered_wids` and `processed_workout_list_pages`
entirely unchanged, and deletes exactly the files matching the glob
`*wid{w}.json` — but the artifact files the exporter actually writes are
named `{date}_wid{w}_seg{NN}.tcx`, which the glob never matches, so at
the concrete reset of identifiers {5, 9} both identifiers leave
`done_wids` while both of their artifact files survive. -/
theorem scoped_reset_state_and_artifacts :
    (∀ (wids : List ℕ) (st : ExportState) (files : Finset String),
        (scoped_reset wids st files).1.done_wids = st.done_wids \ wids.toFinset ∧
        (scoped_reset wids st files).1.discovered_wids = st.discovered_wids ∧
        (scoped_reset wids st files).1.processed_workout_list_pages =
          st.processed_workout_list_pages ∧
        (scoped_reset wids st files).2 =
          files.filter (fun f => ∀ w ∈ wids, matchesWidJsonGlob w f = false)) ∧
    (∀ (w w' : ℕ) (seg : ExportSeg),
        matchesWidJsonGlob w' (segFileName w seg) = false) ∧
    scoped_reset [5, 9] ⟨{5, 9, 11}, {1}, {5, 9, 11}⟩
        {segFileName 5 ⟨"2020-01-01", 1⟩, segFileName 9 ⟨"2020-01-02", 1⟩} =
      (⟨{11}, {1}, {5, 9, 11}⟩,
        {segFileName 5 ⟨"2020-01-01", 1⟩, segFileName 9 ⟨"2020-01-02", 1⟩}) := by
  refine ⟨scoped_reset_props, tcx_never_matches_widJsonGlob, ?_⟩
  decide
